import Mathlib

/-!
Verification of the deltasaver save-manager core (src/src/main.rs).

The core logic is a filename codec (`parse_save_filename`,
`parse_local_save_filename`, and the archive-filename construction in
`backup_save`), three file operations (`backup_save`, `restore_save`,
`delete_local_save`) and a directory scanner (`load_saves`).

Embedding choices:
* Rust strings (`&str`) are embedded as `List Char` (`Str`).  All the
  characters the codec cares about (the "filech" prefix, '_', '+',
  decimal and hex digits) are ASCII, so Rust's byte-based `[6..]` slice
  and `split('_')` coincide with the character-based versions.
* Filesystem paths are lists of path components; `PathBuf::join` with a
  single file name appends one component.
* The filesystem itself is a total map `Path → Option (List Nat)`
  (`none` = no file, `some bytes` = a file with those bytes).
* `SystemTime::now()` is passed in explicitly as `(secs, nanos)`.
* The SHA-256 digest from the `sha2` crate is implemented concretely
  (FIPS 180-4) on byte lists, and `format!("{:x}", …)` as `hexDigest`.
-/

namespace Deltasaver

/-- Rust `&str`, embedded as a list of characters. -/
abbrev Str := List Char

/-- A filesystem path, as its list of components. -/
abbrev Path := List Str

/-- The fixed prefix `"filech"` of every save file name. -/
def filech : Str := ['f', 'i', 'l', 'e', 'c', 'h']

/-- Rust `str::split('_')`: splits on every underscore, keeping empty
fields; splitting the empty string yields one empty field. -/
def splitUnderscore : Str → List Str
  | [] => [[]]
  | c :: rest =>
    if c = '_' then [] :: splitUnderscore rest
    else
      match splitUnderscore rest with
      | [] => [[c]]
      | field :: fields => (c :: field) :: fields

/-- The numeric value of a string of decimal digits, accumulated left to
right exactly as Rust's `u8::from_str` does. -/
def decimalVal (s : Str) : Nat :=
  s.foldl (fun acc c => 10 * acc + (c.toNat - 48)) 0

/-- Rust's unsigned `from_str` accepts one optional leading `'+'`. -/
def stripPlus : Str → Str
  | [] => []
  | c :: rest => if c = '+' then rest else c :: rest

/-- Rust `str::parse::<u8>()`: an optional `'+'`, then one or more ASCII
decimal digits, value at most 255 (checked arithmetic overflows
otherwise); anything else is an error (`none`). -/
def parseU8 (s : Str) : Option Nat :=
  if (stripPlus s).isEmpty then none
  else if (stripPlus s).all Char.isDigit then
    if decimalVal (stripPlus s) ≤ 255 then some (decimalVal (stripPlus s)) else none
  else none

/-- The function `parse_save_filename` (main.rs:442-460): prefix `"filech"`, exactly two `'_'`-separated
fields, both parsing as `u8`, slot at most 2. -/
def parse_save_filename (filename : Str) : Option (Nat × Nat) :=
  if filech.isPrefixOf filename then
    match splitUnderscore (filename.drop 6) with
    | [p0, p1] =>
      match parseU8 p0, parseU8 p1 with
      | some chapter, some slot =>
        if slot ≤ 2 then some (chapter, slot) else none
      | _, _ => none
    | _ => none
  else none

/-- The function `parse_local_save_filename` (main.rs:462-474): prefix `"filech"`, at least three `'_'`-separated
fields, the first two parsing as `u8`, slot at most 2; the third field
is returned verbatim as the hash. -/
def parse_local_save_filename (filename : Str) : Option (Nat × Nat × Str) :=
  if filech.isPrefixOf filename then
    match splitUnderscore (filename.drop 6) with
    | p0 :: p1 :: p2 :: _ =>
      match parseU8 p0, parseU8 p1 with
      | some chapter, some slot =>
        if slot ≤ 2 then some (chapter, slot, p2) else none
      | _, _ => none
    | _ => none
  else none

/-- Rust `Display` for an unsigned integer: plain decimal digits, no
sign, no padding. -/
def natDecimal (n : Nat) : Str :=
  if h : n < 10 then [Char.ofNat (48 + n)]
  else natDecimal (n / 10) ++ [Char.ofNat (48 + n % 10)]
decreasing_by exact Nat.div_lt_self (Nat.lt_of_lt_of_le (by decide) (Nat.le_of_not_lt h)) (by decide)

/-- One lowercase hex digit, as `format!("{:x}", …)` prints a nibble. -/
def hexChar (n : Nat) : Char :=
  "0123456789abcdef".toList.getD n '0'

/-- One byte as two lowercase hex digits (zero-padded). -/
def byteToHex (b : Nat) : Str := [hexChar (b / 16), hexChar (b % 16)]

/-- The formatting `\x7b:x\x7d` of a digest: each byte of the digest as two lowercase
hex digits. -/
def hexDigest (bytes : List Nat) : Str := (bytes.map byteToHex).flatten

/-! ### SHA-256 (the `sha2` crate's `Sha256::digest`), per FIPS 180-4 -/

/-- The word modulus 2^32. -/
def M32 : Nat := 4294967296

/-- Addition modulo 2^32. -/
def add32 (a b : Nat) : Nat := (a + b) % M32

/-- Right rotation of a 32-bit word. -/
def rotr32 (n x : Nat) : Nat := (x >>> n ||| x <<< (32 - n)) % M32

/-- Logical right shift of a 32-bit word. -/
def shr32 (n x : Nat) : Nat := x >>> n

/-- Three-way xor. -/
def xor3 (a b c : Nat) : Nat := Nat.xor (Nat.xor a b) c

/-- The compression function Σ₀. -/
def bigSigma0 (x : Nat) : Nat := xor3 (rotr32 2 x) (rotr32 13 x) (rotr32 22 x)

/-- The compression function Σ₁. -/
def bigSigma1 (x : Nat) : Nat := xor3 (rotr32 6 x) (rotr32 11 x) (rotr32 25 x)

/-- The schedule function σ₀. -/
def smallSigma0 (x : Nat) : Nat := xor3 (rotr32 7 x) (rotr32 18 x) (shr32 3 x)

/-- The schedule function σ₁. -/
def smallSigma1 (x : Nat) : Nat := xor3 (rotr32 17 x) (rotr32 19 x) (shr32 10 x)

/-- The choice function Ch(x,y,z) = (x AND y) XOR ((NOT x) AND z), complement taken within 32 bits. -/
def chFn (x y z : Nat) : Nat := Nat.xor (Nat.land x y) (Nat.land (M32 - 1 - x % M32) z)

/-- The majority function Maj(x,y,z). -/
def majFn (x y z : Nat) : Nat := xor3 (Nat.land x y) (Nat.land x z) (Nat.land y z)

/-- The 64 SHA-256 round constants. -/
def sha256K : List Nat :=
  [1116352408, 1899447441, 3049323471, 3921009573, 961987163, 1508970993,
   2453635748, 2870763221, 3624381080, 310598401, 607225278, 1426881987,
   1925078388, 2162078206, 2614888103, 3248222580, 3835390401, 4022224774,
   264347078, 604807628, 770255983, 1249150122, 1555081692, 1996064986,
   2554220882, 2821834349, 2952996808, 3210313671, 3336571891, 3584528711,
   113926993, 338241895, 666307205, 773529912, 1294757372, 1396182291,
   1695183700, 1986661051, 2177026350, 2456956037, 2730485921, 2820302411,
   3259730800, 3345764771, 3516065817, 3600352804, 4094571909, 275423344,
   430227734, 506948616, 659060556, 883997877, 958139571, 1322822218,
   1537002063, 1747873779, 1955562222, 2024104815, 2227730452, 2361852424,
   2428436474, 2756734187, 3204031479, 3329325298]

/-- The initial SHA-256 hash state. -/
def sha256H0 : List Nat :=
  [1779033703, 3144134277, 1013904242, 2773480762,
   1359893119, 2600822924, 528734635, 1541459225]

/-- The `numBytes` big-endian bytes of `n`. -/
def beBytes (numBytes n : Nat) : List Nat :=
  (List.range numBytes).map (fun i => n / 2 ^ (8 * (numBytes - 1 - i)) % 256)

/-- Padding for SHA-256: append `0x80`, zeros to 56 mod 64, then the 8-byte
big-endian bit length. -/
def padMessage (msg : List Nat) : List Nat :=
  msg ++ 128 :: List.replicate ((119 - msg.length % 64) % 64) 0 ++ beBytes 8 (8 * msg.length)

/-- Split a byte list into 64-byte chunks. -/
def chunks64 : List Nat → List (List Nat)
  | [] => []
  | a :: rest => (a :: rest).take 64 :: chunks64 ((a :: rest).drop 64)
termination_by l => l.length
decreasing_by simp [List.length_drop]; omega

/-- The 16 initial big-endian message-schedule words of one chunk. -/
def wordsOf (chunk : List Nat) : List Nat :=
  (List.range 16).map (fun i =>
    chunk.getD (4 * i) 0 * 16777216 + chunk.getD (4 * i + 1) 0 * 65536 +
      chunk.getD (4 * i + 2) 0 * 256 + chunk.getD (4 * i + 3) 0)

/-- Extend 16 schedule words to 64. -/
def schedule (w16 : List Nat) : List Nat :=
  (List.range 48).foldl
    (fun w _ =>
      w ++ [add32 (add32 (smallSigma1 (w.getD (w.length - 2) 0)) (w.getD (w.length - 7) 0))
              (add32 (smallSigma0 (w.getD (w.length - 15) 0)) (w.getD (w.length - 16) 0))])
    w16

/-- One SHA-256 round on the 8-word working state. -/
def roundFn (st : List Nat) (k w : Nat) : List Nat :=
  let a := st.getD 0 0
  let b := st.getD 1 0
  let c := st.getD 2 0
  let d := st.getD 3 0
  let e := st.getD 4 0
  let f := st.getD 5 0
  let g := st.getD 6 0
  let h := st.getD 7 0
  let t1 := add32 h (add32 (bigSigma1 e) (add32 (chFn e f g) (add32 k w)))
  let t2 := add32 (bigSigma0 a) (majFn a b c)
  [add32 t1 t2, a, b, c, add32 d t1, e, f, g]

/-- Compress one 64-byte chunk into the hash state. -/
def processChunk (h : List Nat) (chunk : List Nat) : List Nat :=
  let w := schedule (wordsOf chunk)
  let st := (List.zip sha256K w).foldl (fun st kw => roundFn st kw.1 kw.2) h
  (List.zip h st).map (fun p => add32 p.1 p.2)

/-- The digest function `Sha256::digest`: the 32-byte SHA-256 digest of a byte list. -/
def sha256 (msg : List Nat) : List Nat :=
  ((chunks64 (padMessage msg)).foldl processChunk sha256H0).flatMap (beBytes 4)

/-! ### Filename construction and the file operations -/

/-- The archive filename built inside `backup_save` (main.rs:487-494):
`format!("filech{}_{}_{}_{}_{}", chapter, slot, hash, secs, nanos)`
with `hash = format!("{:x}", Sha256::digest(&contents))`. -/
def backup_filename (chapter slot : Nat) (contents : List Nat) (secs nanos : Nat) : Str :=
  filech ++ (natDecimal chapter ++ ('_' :: (natDecimal slot ++ ('_' ::
    (hexDigest (sha256 contents) ++ ('_' :: (natDecimal secs ++ ('_' :: natDecimal nanos))))))))

/-- The live filename built inside `restore_save` (main.rs:507):
`format!("filech{}_{}", chapter, slot)`. -/
def live_filename (chapter slot : Nat) : Str :=
  filech ++ (natDecimal chapter ++ ('_' :: natDecimal slot))

/-- A filesystem: a total map from paths to optional byte contents. -/
def FS := Path → Option (List Nat)

/-- Writing a file (`fs::write`): create or overwrite the file at `p` with contents `c`. -/
def FS.write (fs : FS) (p : Path) (c : List Nat) : FS :=
  fun q => if q = p then some c else fs q

/-- The operation `backup_save` (main.rs:476-498): read the source file, hash
its contents, build the timestamped archive filename, and write the
bytes to that name inside the archive directory.  The wall clock is
passed in as `(secs, nanos)`. -/
def backup_save (fs : FS) (source_path : Path) (local_directory : Path)
    (chapter slot : Nat) (secs nanos : Nat) : Except Unit FS :=
  match fs source_path with
  | none => .error ()
  | some contents =>
    let dest_path := local_directory ++ [backup_filename chapter slot contents secs nanos]
    .ok (fs.write dest_path contents)

/-- The operation `restore_save` (main.rs:500-510): read the archive file and
write its bytes to `filech<chapter>_<slot>` in the game directory. -/
def restore_save (fs : FS) (local_path : Path) (deltarune_directory : Path)
    (chapter slot : Nat) : Except Unit FS :=
  match fs local_path with
  | none => .error ()
  | some contents =>
    let dest_path := deltarune_directory ++ [live_filename chapter slot]
    .ok (fs.write dest_path contents)

/-! ### The directory scanner `load_saves` -/

/-- The record `SaveFile` (main.rs:37-45).  `modified` is the best-effort
filesystem modification time (an abstract tick count). -/
structure SaveFile where
  path : Path
  chapter : Nat
  slot : Nat
  hash : Option Str
  modified : Option Nat
  is_local : Bool
deriving DecidableEq, Repr

/-- The error type `LoadError` (main.rs:83-86). -/
inductive LoadError where
  | IoError : Unit → LoadError
deriving DecidableEq, Repr

/-- One result of iterating `fs::read_dir`: either an errored entry
(`entry.map_err(…)?` fails the whole scan), or an entry whose filename
is `some` UTF-8 name (a non-UTF-8 name is skipped) with a best-effort
modification time. -/
inductive EntryResult where
  | fail : EntryResult
  | found : Option Str → Option Nat → EntryResult
deriving DecidableEq, Repr

/-- What scanning one directory can observe: the directory does not
exist (`exists()` is false), `read_dir` itself fails, or it yields a
list of entry results. -/
inductive DirListing where
  | absent : DirListing
  | readFail : DirListing
  | entries : List EntryResult → DirListing
deriving DecidableEq, Repr

/-- Insertion into a `HashMap`: replace the value at an existing key, otherwise
append a new binding. -/
def insertKV {K V : Type} [DecidableEq K] (m : List (K × V)) (k : K) (v : V) : List (K × V) :=
  match m with
  | [] => [(k, v)]
  | (k', v') :: rest => if k' = k then (k, v) :: rest else (k', v') :: insertKV rest k v

/-- Lookup in a `HashMap`: the value at a key, if any. -/
def lookupKV {K V : Type} [DecidableEq K] (m : List (K × V)) (k : K) : Option V :=
  match m with
  | [] => none
  | (k', v') :: rest => if k' = k then some v' else lookupKV rest k

/-- The game-directory entry loop of `load_saves` (main.rs:389-411):
each errored entry aborts the scan; a parseable filename is inserted
into the map keyed by `(chapter, slot)`; anything else is skipped. -/
def scanGameEntries (game_path : Path) :
    List EntryResult → List ((Nat × Nat) × SaveFile) →
      Except LoadError (List ((Nat × Nat) × SaveFile))
  | [], m => .ok m
  | .fail :: _, _ => .error (.IoError ())
  | .found none _ :: rest, m => scanGameEntries game_path rest m
  | .found (some filename) modified :: rest, m =>
    match parse_save_filename filename with
    | some (chapter, slot) =>
      scanGameEntries game_path rest
        (insertKV m (chapter, slot)
          ⟨game_path ++ [filename], chapter, slot, none, modified, false⟩)
    | none => scanGameEntries game_path rest m

/-- The archive-directory entry loop of `load_saves` (main.rs:418-436). -/
def scanLocalEntries (local_path : Path) :
    List EntryResult → List SaveFile → Except LoadError (List SaveFile)
  | [], acc => .ok acc
  | .fail :: _, _ => .error (.IoError ())
  | .found none _ :: rest, acc => scanLocalEntries local_path rest acc
  | .found (some filename) modified :: rest, acc =>
    match parse_local_save_filename filename with
    | some (chapter, slot, hash) =>
      scanLocalEntries local_path rest
        (acc ++ [⟨local_path ++ [filename], chapter, slot, some hash, modified, true⟩])
    | none => scanLocalEntries local_path rest acc

/-- The game-directory half of `load_saves` (main.rs:386-412): a missing
directory is treated as empty; a failed `read_dir` is an `IoError`. -/
def scanGame (game_path : Path) : DirListing → Except LoadError (List ((Nat × Nat) × SaveFile))
  | .absent => .ok []
  | .readFail => .error (.IoError ())
  | .entries es => scanGameEntries game_path es []

/-- The archive-directory half of `load_saves` (main.rs:415-437). -/
def scanLocal (local_path : Path) : DirListing → Except LoadError (List SaveFile)
  | .absent => .ok []
  | .readFail => .error (.IoError ())
  | .entries es => scanLocalEntries local_path es []

/-- The scan `load_saves` (main.rs:379-440): scan the game directory,
then the archive directory; the first failure aborts the whole scan. -/
def load_saves (game_dir local_dir : DirListing) (game_path local_path : Path) :
    Except LoadError (List ((Nat × Nat) × SaveFile) × List SaveFile) :=
  match scanGame game_path game_dir with
  | .error e => .error e
  | .ok game_saves =>
    match scanLocal local_path local_dir with
    | .error e => .error e
    | .ok local_saves => .ok (game_saves, local_saves)

/-- One step of the last-wins specification: if the entry decodes to
the key `k`, its record replaces the accumulator, otherwise the
accumulator is kept. -/
def lastStep (game_path : Path) (k : Nat × Nat) (acc : Option SaveFile) (e : EntryResult) :
    Option SaveFile :=
  match e with
  | .found (some filename) modified =>
    match parse_save_filename filename with
    | some (chapter, slot) =>
      if (chapter, slot) = k then
        some ⟨game_path ++ [filename], chapter, slot, none, modified, false⟩
      else acc
    | none => acc
  | _ => acc

/-- The record built from the last entry of a game-directory listing
whose filename decodes to the key `k`, if any (the specification of
last-wins duplicate handling). -/
def lastSaveFor (game_path : Path) (k : Nat × Nat) (es : List EntryResult) : Option SaveFile :=
  es.foldl (lastStep game_path k) none

/-- A one-file filesystem holding the bytes of `"AAAA"` at path `s/f`,
used to exercise the operation theorems on a concrete input. -/
def sampleFS : FS :=
  fun p => if p = [['s'], ['f']] then some [65, 65, 65, 65] else none

/-- A one-entry game-directory listing holding the live save
`filech1_0`, used to exercise the scanner theorems. -/
def sampleListing : DirListing :=
  .entries [.found (some "filech1_0".toList) (some 7)]

/-- A game-directory listing in which two entries decode to the same
`(chapter, slot)` key, used to exercise last-wins duplicate handling. -/
def dupListing : DirListing :=
  .entries [.found (some "filech1_0".toList) (some 1),
    .found (some "filech1_0".toList) (some 2)]

/-! ## Lemmas about the codec primitives -/

lemma splitUnderscore_ne_nil (s : Str) : splitUnderscore s ≠ [] := by
  induction s with
  | nil => simp [splitUnderscore]
  | cons c rest ih =>
    rw [splitUnderscore]
    split
    · simp
    · split <;> simp

lemma splitUnderscore_no_sep (s : Str) (h : '_' ∉ s) : splitUnderscore s = [s] := by
  induction s with
  | nil => rfl
  | cons c rest ih =>
    rw [splitUnderscore]
    have hc : ¬ c = '_' := fun hc => h (by simp [hc])
    rw [if_neg hc, ih (fun hm => h (List.mem_cons_of_mem _ hm))]

lemma splitUnderscore_append (xs ys : Str) (h : '_' ∉ xs) :
    splitUnderscore (xs ++ '_' :: ys) = xs :: splitUnderscore ys := by
  induction xs with
  | nil =>
    simp only [List.nil_append]
    rw [splitUnderscore, if_pos rfl]
  | cons c rest ih =>
    have hc : ¬ c = '_' := fun hc => h (by simp [hc])
    simp only [List.cons_append]
    rw [splitUnderscore, if_neg hc, ih (fun hm => h (List.mem_cons_of_mem _ hm))]

lemma digitChar_facts : ∀ d < 10, (Char.ofNat (48 + d)).toNat = 48 + d ∧
    (Char.ofNat (48 + d)).isDigit = true ∧ Char.ofNat (48 + d) ≠ '_' ∧
    Char.ofNat (48 + d) ≠ '+' := by decide

lemma natDecimal_all_digits (n : Nat) : ∀ c ∈ natDecimal n, c.isDigit = true := by
  induction n using Nat.strong_induction_on with
  | _ n ih =>
    rw [natDecimal.eq_def]
    split
    · next h =>
      intro c hc
      simp only [List.mem_singleton] at hc
      subst hc
      exact (digitChar_facts n h).2.1
    · next h =>
      intro c hc
      rw [List.mem_append] at hc
      cases hc with
      | inl hc => exact ih (n / 10) (Nat.div_lt_self (by omega) (by decide)) c hc
      | inr hc =>
        simp only [List.mem_singleton] at hc
        subst hc
        exact (digitChar_facts (n % 10) (Nat.mod_lt _ (by decide))).2.1

lemma natDecimal_ne_nil (n : Nat) : natDecimal n ≠ [] := by
  rw [natDecimal.eq_def]
  split <;> simp

lemma natDecimal_no_underscore (n : Nat) : '_' ∉ natDecimal n := by
  intro hm
  exact absurd (natDecimal_all_digits n '_' hm) (by decide)

lemma decimalVal_append_digit (xs : Str) (c : Char) :
    decimalVal (xs ++ [c]) = 10 * decimalVal xs + (c.toNat - 48) := by
  simp [decimalVal, List.foldl_append]

lemma decimalVal_natDecimal (n : Nat) : decimalVal (natDecimal n) = n := by
  induction n using Nat.strong_induction_on with
  | _ n ih =>
    rw [natDecimal.eq_def]
    split
    · next h =>
      simp only [decimalVal, List.foldl_cons, List.foldl_nil]
      rw [(digitChar_facts n h).1]
      omega
    · next h =>
      rw [decimalVal_append_digit, ih (n / 10) (Nat.div_lt_self (by omega) (by decide)),
        (digitChar_facts (n % 10) (Nat.mod_lt _ (by decide))).1]
      omega

lemma parseU8_natDecimal (n : Nat) (h : n ≤ 255) : parseU8 (natDecimal n) = some n := by
  obtain ⟨c, rest, hcr⟩ : ∃ c rest, natDecimal n = c :: rest := by
    cases hd : natDecimal n with
    | nil => exact absurd hd (natDecimal_ne_nil n)
    | cons c rest => exact ⟨c, rest, rfl⟩
  have hplus : stripPlus (natDecimal n) = natDecimal n := by
    rw [hcr, stripPlus]
    have hd : c.isDigit = true := natDecimal_all_digits n c (hcr ▸ List.mem_cons_self c rest)
    have hcp : ¬ c = '+' := by
      intro hc
      subst hc
      exact absurd hd (by decide)
    rw [if_neg hcp]
  have hisEmpty : (natDecimal n).isEmpty = false := by rw [hcr]; rfl
  have hall : (natDecimal n).all Char.isDigit = true :=
    List.all_eq_true.mpr (natDecimal_all_digits n)
  unfold parseU8
  rw [hplus, hisEmpty, hall, decimalVal_natDecimal]
  simp [h]

lemma hexChar_small : ∀ n < 16, hexChar n ≠ '_' := by decide

lemma hexChar_ne_underscore (n : Nat) : hexChar n ≠ '_' := by
  by_cases h : n < 16
  · exact hexChar_small n h
  · rw [hexChar, List.getD_eq_default]
    · decide
    · rw [show ("0123456789abcdef".toList).length = 16 from rfl]
      omega

lemma hexDigest_no_underscore (bytes : List Nat) : '_' ∉ hexDigest bytes := by
  intro hm
  rw [hexDigest, List.mem_flatten] at hm
  obtain ⟨l, hl, hcl⟩ := hm
  rw [List.mem_map] at hl
  obtain ⟨b, _, rfl⟩ := hl
  rw [byteToHex] at hcl
  simp only [List.mem_cons, List.mem_singleton, List.not_mem_nil, or_false] at hcl
  cases hcl with
  | inl h => exact hexChar_ne_underscore _ h.symm
  | inr h => exact hexChar_ne_underscore _ h.symm

/-! ## Round-trip lemmas for the filename codec -/

lemma filech_isPrefixOf_append (rest : Str) : filech.isPrefixOf (filech ++ rest) = true := by
  rw [List.isPrefixOf_iff_prefix]
  exact List.prefix_append _ _

lemma drop6_filech_append (rest : Str) : (filech ++ rest).drop 6 = rest :=
  List.drop_left' rfl

lemma split_archive_name (chapter slot : Nat) (C : List Nat) (secs nanos : Nat) :
    splitUnderscore ((backup_filename chapter slot C secs nanos).drop 6) =
      [natDecimal chapter, natDecimal slot, hexDigest (sha256 C),
        natDecimal secs, natDecimal nanos] := by
  unfold backup_filename
  rw [drop6_filech_append,
    splitUnderscore_append _ _ (natDecimal_no_underscore chapter),
    splitUnderscore_append _ _ (natDecimal_no_underscore slot),
    splitUnderscore_append _ _ (hexDigest_no_underscore (sha256 C)),
    splitUnderscore_append _ _ (natDecimal_no_underscore secs),
    splitUnderscore_no_sep _ (natDecimal_no_underscore nanos)]

lemma split_live_name (chapter slot : Nat) :
    splitUnderscore ((live_filename chapter slot).drop 6) =
      [natDecimal chapter, natDecimal slot] := by
  unfold live_filename
  rw [drop6_filech_append,
    splitUnderscore_append _ _ (natDecimal_no_underscore chapter),
    splitUnderscore_no_sep _ (natDecimal_no_underscore slot)]

lemma parse_local_of_split (filename : Str) (p0 p1 p2 : Str) (ps : List Str)
    (hp : filech.isPrefixOf filename = true)
    (hsplit : splitUnderscore (filename.drop 6) = p0 :: p1 :: p2 :: ps) :
    parse_local_save_filename filename =
      match parseU8 p0, parseU8 p1 with
      | some chapter, some slot => if slot ≤ 2 then some (chapter, slot, p2) else none
      | _, _ => none := by
  unfold parse_local_save_filename
  rw [hp, if_pos rfl, hsplit]

lemma parse_live_of_split (filename : Str) (p0 p1 : Str)
    (hp : filech.isPrefixOf filename = true)
    (hsplit : splitUnderscore (filename.drop 6) = [p0, p1]) :
    parse_save_filename filename =
      match parseU8 p0, parseU8 p1 with
      | some chapter, some slot => if slot ≤ 2 then some (chapter, slot) else none
      | _, _ => none := by
  unfold parse_save_filename
  rw [hp, if_pos rfl, hsplit]

lemma parse_archive_roundtrip (chapter slot : Nat) (C : List Nat) (secs nanos : Nat)
    (hc : chapter ≤ 255) (hs : slot ≤ 2) :
    parse_local_save_filename (backup_filename chapter slot C secs nanos) =
      some (chapter, slot, hexDigest (sha256 C)) := by
  have hp : filech.isPrefixOf (backup_filename chapter slot C secs nanos) = true := by
    unfold backup_filename
    exact filech_isPrefixOf_append _
  rw [parse_local_of_split _ _ _ _ _ hp (split_archive_name chapter slot C secs nanos),
    parseU8_natDecimal chapter hc, parseU8_natDecimal slot (by omega)]
  simp [hs]

lemma parse_live_roundtrip (chapter slot : Nat) (hc : chapter ≤ 255) (hs : slot ≤ 2) :
    parse_save_filename (live_filename chapter slot) = some (chapter, slot) := by
  have hp : filech.isPrefixOf (live_filename chapter slot) = true := by
    unfold live_filename
    exact filech_isPrefixOf_append _
  rw [parse_live_of_split _ _ _ hp (split_live_name chapter slot),
    parseU8_natDecimal chapter hc, parseU8_natDecimal slot (by omega)]
  simp [hs]

/-! ## Claim theorems -/

/-- C1.  Round-trip of the archive codec: for every chapter in [0,255],
every slot in {0,1,2} and every byte content, building the archive
filename as `backup_save` does (prefix "filech", chapter, slot,
lowercase hex SHA-256 of the content, epoch seconds, subsecond nanos,
joined by underscores) and decoding it with `parse_local_save_filename`
returns `some` of exactly that chapter, that slot and that hex hash. -/
theorem claim_C1_roundtrip (chapter slot : Nat) (content : List Nat) (secs nanos : Nat)
    (hc : chapter ≤ 255) (hs : slot ≤ 2) :
    parse_local_save_filename (backup_filename chapter slot content secs nanos) =
      some (chapter, slot, hexDigest (sha256 content)) :=
  parse_archive_roundtrip chapter slot content secs nanos hc hs

/-- Witness for C1 at chapter 1, slot 0, content "AAAA", a concrete
timestamp. -/
theorem claim_C1_roundtrip_witness :
    parse_local_save_filename (backup_filename 1 0 [65, 65, 65, 65] 1700000000 123456789) =
      some (1, 0, hexDigest (sha256 [65, 65, 65, 65])) :=
  claim_C1_roundtrip 1 0 [65, 65, 65, 65] 1700000000 123456789 (by decide) (by decide)

/-- C2.  Live-form decode contract: `parse_save_filename` returns
`some (chapter, slot)` exactly when the name starts with "filech" and
the remainder splits on '_' into exactly two fields, each parsing as a
`u8`, with slot at most 2; every other input (e.g. "filechX_0") yields
`none` — the function is total, so no error is ever raised. -/
theorem claim_C2_live_decode :
    (∀ (filename : Str) (chapter slot : Nat),
      parse_save_filename filename = some (chapter, slot) ↔
        filech.isPrefixOf filename = true ∧
          ∃ p0 p1, splitUnderscore (filename.drop 6) = [p0, p1] ∧
            parseU8 p0 = some chapter ∧ parseU8 p1 = some slot ∧ slot ≤ 2) ∧
      parse_save_filename "filechX_0".toList = none := by
  constructor
  · intro filename chapter slot
    constructor
    · intro h
      unfold parse_save_filename at h
      split at h
      · next hp =>
        refine ⟨hp, ?_⟩
        split at h
        · next p0 p1 heq =>
          refine ⟨p0, p1, heq, ?_⟩
          split at h
          · next c s h0 h1 =>
            split at h
            · next hle =>
              obtain ⟨rfl, rfl⟩ := Prod.mk.injEq .. ▸ Option.some.injEq .. ▸ h
              exact ⟨h0, h1, hle⟩
            · exact absurd h (by simp)
          · exact absurd h (by simp)
        · exact absurd h (by simp)
      · exact absurd h (by simp)
    · rintro ⟨hp, p0, p1, hsplit, h0, h1, hle⟩
      rw [parse_live_of_split filename p0 p1 hp hsplit, h0, h1]
      simp [hle]
  · decide

/-- C3.  Archive-form decode contract: `parse_local_save_filename`
returns `some (chapter, slot, hash)` exactly when the name starts with
"filech" and the remainder splits on '_' into at least three fields,
the first two parsing as `u8` with slot at most 2, the hash being the
third field verbatim and any extra trailing fields tolerated; every
rejection (e.g. "filech3_5_abcdef_100_0", whose slot is 5) yields
`none` — the function is total, so no error is ever raised. -/
theorem claim_C3_archive_decode :
    (∀ (filename : Str) (chapter slot : Nat) (hash : Str),
      parse_local_save_filename filename = some (chapter, slot, hash) ↔
        filech.isPrefixOf filename = true ∧
          ∃ p0 p1 rest, splitUnderscore (filename.drop 6) = p0 :: p1 :: hash :: rest ∧
            parseU8 p0 = some chapter ∧ parseU8 p1 = some slot ∧ slot ≤ 2) ∧
      parse_local_save_filename "filech3_5_abcdef_100_0".toList = none := by
  constructor
  · intro filename chapter slot hash
    constructor
    · intro h
      unfold parse_local_save_filename at h
      split at h
      · next hp =>
        refine ⟨hp, ?_⟩
        split at h
        · next p0 p1 p2 ps heq =>
          split at h
          · next c s h0 h1 =>
            split at h
            · next hle =>
              obtain ⟨rfl, rfl, rfl⟩ :
                  c = chapter ∧ s = slot ∧ p2 = hash := by
                have := Option.some.injEq .. ▸ h
                exact ⟨congrArg Prod.fst this,
                  congrArg (Prod.fst ∘ Prod.snd) this,
                  congrArg (Prod.snd ∘ Prod.snd) this⟩
              exact ⟨p0, p1, ps, heq, h0, h1, hle⟩
            · exact absurd h (by simp)
          · exact absurd h (by simp)
        · exact absurd h (by simp)
      · exact absurd h (by simp)
    · rintro ⟨hp, p0, p1, rest, hsplit, h0, h1, hle⟩
      rw [parse_local_of_split filename p0 p1 hash rest hp hsplit, h0, h1]
      simp [hle]
  · decide

lemma backup_filename_time_inj (chapter slot : Nat) (C : List Nat) (s1 n1 s2 n2 : Nat)
    (h : backup_filename chapter slot C s1 n1 = backup_filename chapter slot C s2 n2) :
    s1 = s2 ∧ n1 = n2 := by
  have h5 := congrArg (fun s => splitUnderscore (s.drop 6)) h
  simp only [split_archive_name] at h5
  simp only [List.cons.injEq, and_true] at h5
  obtain ⟨-, -, -, hd, he⟩ := h5
  constructor
  · have := congrArg decimalVal hd
    rwa [decimalVal_natDecimal, decimalVal_natDecimal] at this
  · have := congrArg decimalVal he
    rwa [decimalVal_natDecimal, decimalVal_natDecimal] at this

lemma dir_join_ne (dir : Path) (f1 f2 : Str) (h : f1 ≠ f2) : dir ++ [f1] ≠ dir ++ [f2] := by
  intro he
  exact h (by simpa using List.append_cancel_left he)

/-- C4.  Backup postcondition: when the source file exists with content
`C`, `backup_save` succeeds, the archive directory gains exactly one
new file named `filech<chapter>_<slot>_<h>_<secs>_<nanos>` (with `h`
the lowercase hex SHA-256 digest of `C`) whose content is `C`
byte-for-byte, every other path is untouched, and the source file still
holds `C` (it is neither modified nor deleted). -/
theorem claim_C4_backup (fs : FS) (source_path local_directory : Path)
    (chapter slot secs nanos : Nat) (C : List Nat)
    (h : fs source_path = some C) :
    backup_save fs source_path local_directory chapter slot secs nanos =
        .ok (fs.write (local_directory ++ [backup_filename chapter slot C secs nanos]) C) ∧
      backup_filename chapter slot C secs nanos =
        filech ++ (natDecimal chapter ++ ('_' :: (natDecimal slot ++ ('_' ::
          (hexDigest (sha256 C) ++ ('_' :: (natDecimal secs ++ ('_' :: natDecimal nanos)))))))) ∧
      fs.write (local_directory ++ [backup_filename chapter slot C secs nanos]) C
          (local_directory ++ [backup_filename chapter slot C secs nanos]) = some C ∧
      (∀ p, p ≠ local_directory ++ [backup_filename chapter slot C secs nanos] →
        fs.write (local_directory ++ [backup_filename chapter slot C secs nanos]) C p = fs p) ∧
      fs.write (local_directory ++ [backup_filename chapter slot C secs nanos]) C source_path
        = some C := by
  refine ⟨?_, rfl, ?_, ?_, ?_⟩
  · unfold backup_save
    rw [h]
  · unfold FS.write
    rw [if_pos rfl]
  · intro p hp
    unfold FS.write
    rw [if_neg hp]
  · unfold FS.write
    by_cases hsp : source_path = local_directory ++ [backup_filename chapter slot C secs nanos]
    · rw [if_pos hsp]
    · rw [if_neg hsp, h]

/-- Witness for C4: a successful backup of the concrete one-file
filesystem. -/
theorem claim_C4_backup_witness :
    backup_save sampleFS [['s'], ['f']] [['d']] 1 0 100 5 =
      .ok (sampleFS.write ([['d']] ++ [backup_filename 1 0 [65, 65, 65, 65] 100 5])
        [65, 65, 65, 65]) :=
  (claim_C4_backup sampleFS [['s'], ['f']] [['d']] 1 0 100 5 [65, 65, 65, 65] (by rfl)).1

/-- C5.  Restore postcondition: when the archive file exists with
content `C`, `restore_save` succeeds and writes `C` unmodified to the
file named `filech<chapter>_<slot>` (no hash or timestamp suffix) in
the game save directory; this holds for every prior filesystem state,
so whatever previously occupied that name is unconditionally
overwritten. -/
theorem claim_C5_restore (fs : FS) (local_path deltarune_directory : Path)
    (chapter slot : Nat) (C : List Nat) (h : fs local_path = some C) :
    restore_save fs local_path deltarune_directory chapter slot =
        .ok (fs.write (deltarune_directory ++ [live_filename chapter slot]) C) ∧
      live_filename chapter slot = filech ++ (natDecimal chapter ++ ('_' :: natDecimal slot)) ∧
      fs.write (deltarune_directory ++ [live_filename chapter slot]) C
        (deltarune_directory ++ [live_filename chapter slot]) = some C := by
  refine ⟨?_, rfl, ?_⟩
  · unfold restore_save
    rw [h]
  · unfold FS.write
    rw [if_pos rfl]

/-- Witness for C5 at chapter 2, slot 1 on the concrete filesystem. -/
theorem claim_C5_restore_witness :
    restore_save sampleFS [['s'], ['f']] [['g']] 2 1 =
      .ok (sampleFS.write ([['g']] ++ [live_filename 2 1]) [65, 65, 65, 65]) :=
  (claim_C5_restore sampleFS [['s'], ['f']] [['g']] 2 1 [65, 65, 65, 65] (by rfl)).1

/-- C8.  Backup name uniqueness under distinct timestamps: two
successive backups of the same source file with the same chapter and
slot but different `(secs, nanos)` readings succeed, produce distinct
archive filenames that embed the identical hash component
`hexDigest (sha256 C)` as their third underscore field, and after the
second backup both archive files are present with content `C` — the
second backup never overwrites the first. -/
theorem claim_C8_distinct_timestamps (fs : FS) (source_path local_directory : Path)
    (chapter slot : Nat) (C : List Nat) (s1 n1 s2 n2 : Nat)
    (h : fs source_path = some C) (hne : (s1, n1) ≠ (s2, n2)) :
    backup_save fs source_path local_directory chapter slot s1 n1 =
        .ok (fs.write (local_directory ++ [backup_filename chapter slot C s1 n1]) C) ∧
      backup_save (fs.write (local_directory ++ [backup_filename chapter slot C s1 n1]) C)
          source_path local_directory chapter slot s2 n2 =
        .ok ((fs.write (local_directory ++ [backup_filename chapter slot C s1 n1]) C).write
          (local_directory ++ [backup_filename chapter slot C s2 n2]) C) ∧
      backup_filename chapter slot C s1 n1 ≠ backup_filename chapter slot C s2 n2 ∧
      splitUnderscore ((backup_filename chapter slot C s1 n1).drop 6) =
        [natDecimal chapter, natDecimal slot, hexDigest (sha256 C),
          natDecimal s1, natDecimal n1] ∧
      splitUnderscore ((backup_filename chapter slot C s2 n2).drop 6) =
        [natDecimal chapter, natDecimal slot, hexDigest (sha256 C),
          natDecimal s2, natDecimal n2] ∧
      ((fs.write (local_directory ++ [backup_filename chapter slot C s1 n1]) C).write
          (local_directory ++ [backup_filename chapter slot C s2 n2]) C)
        (local_directory ++ [backup_filename chapter slot C s1 n1]) = some C ∧
      ((fs.write (local_directory ++ [backup_filename chapter slot C s1 n1]) C).write
          (local_directory ++ [backup_filename chapter slot C s2 n2]) C)
        (local_directory ++ [backup_filename chapter slot C s2 n2]) = some C := by
  have hfn : backup_filename chapter slot C s1 n1 ≠ backup_filename chapter slot C s2 n2 := by
    intro he
    obtain ⟨rfl, rfl⟩ := backup_filename_time_inj chapter slot C s1 n1 s2 n2 he
    exact hne rfl
  have hpath : local_directory ++ [backup_filename chapter slot C s1 n1] ≠
      local_directory ++ [backup_filename chapter slot C s2 n2] :=
    dir_join_ne _ _ _ hfn
  have h1 : (fs.write (local_directory ++ [backup_filename chapter slot C s1 n1]) C)
      source_path = some C := by
    unfold FS.write
    by_cases hsp : source_path = local_directory ++ [backup_filename chapter slot C s1 n1]
    · rw [if_pos hsp]
    · rw [if_neg hsp, h]
  refine ⟨?_, ?_, hfn, split_archive_name .., split_archive_name .., ?_, ?_⟩
  · unfold backup_save
    rw [h]
  · unfold backup_save
    rw [h1]
  · conv_lhs => unfold FS.write
    rw [if_neg hpath, if_pos rfl]
  · conv_lhs => unfold FS.write
    rw [if_pos rfl]

/-- Witness for C8: two backups one nanosecond apart yield different
archive filenames. -/
theorem claim_C8_distinct_timestamps_witness :
    backup_filename 1 0 [65, 65, 65, 65] 100 5 ≠ backup_filename 1 0 [65, 65, 65, 65] 100 6 :=
  (claim_C8_distinct_timestamps sampleFS [['s'], ['f']] [['d']] 1 0 [65, 65, 65, 65]
    100 5 100 6 (by rfl) (by decide)).2.2.1

/-! ## Lemmas about the scanner -/

lemma scanGameEntries_cons_found (gp : Path) (fn : Str) (t : Option Nat)
    (rest : List EntryResult) (m : List ((Nat × Nat) × SaveFile)) :
    scanGameEntries gp (.found (some fn) t :: rest) m =
      match parse_save_filename fn with
      | some (chapter, slot) =>
        scanGameEntries gp rest
          (insertKV m (chapter, slot) ⟨gp ++ [fn], chapter, slot, none, t, false⟩)
      | none => scanGameEntries gp rest m := rfl

lemma scanLocalEntries_cons_found (lp : Path) (fn : Str) (t : Option Nat)
    (rest : List EntryResult) (acc : List SaveFile) :
    scanLocalEntries lp (.found (some fn) t :: rest) acc =
      match parse_local_save_filename fn with
      | some (chapter, slot, hash) =>
        scanLocalEntries lp rest
          (acc ++ [⟨lp ++ [fn], chapter, slot, some hash, t, true⟩])
      | none => scanLocalEntries lp rest acc := rfl

lemma scanGameEntries_error_of_fail (gp : Path) (es : List EntryResult)
    (hm : EntryResult.fail ∈ es) :
    ∀ m, scanGameEntries gp es m = .error (.IoError ()) := by
  induction es with
  | nil => exact absurd hm (List.not_mem_nil _)
  | cons e rest ih =>
    intro m
    match e with
    | .fail => rfl
    | .found none t =>
      have hr : EntryResult.fail ∈ rest := by
        rcases List.mem_cons.mp hm with h' | h'
        · exact absurd h' (by simp)
        · exact h'
      exact ih hr m
    | .found (some fn) t =>
      have hr : EntryResult.fail ∈ rest := by
        rcases List.mem_cons.mp hm with h' | h'
        · exact absurd h' (by simp)
        · exact h'
      rw [scanGameEntries_cons_found]
      cases hp : parse_save_filename fn with
      | none => exact ih hr m
      | some cs =>
        obtain ⟨c, s⟩ := cs
        exact ih hr _

lemma scanLocalEntries_error_of_fail (lp : Path) (es : List EntryResult)
    (hm : EntryResult.fail ∈ es) :
    ∀ acc, scanLocalEntries lp es acc = .error (.IoError ()) := by
  induction es with
  | nil => exact absurd hm (List.not_mem_nil _)
  | cons e rest ih =>
    intro acc
    match e with
    | .fail => rfl
    | .found none t =>
      have hr : EntryResult.fail ∈ rest := by
        rcases List.mem_cons.mp hm with h' | h'
        · exact absurd h' (by simp)
        · exact h'
      exact ih hr acc
    | .found (some fn) t =>
      have hr : EntryResult.fail ∈ rest := by
        rcases List.mem_cons.mp hm with h' | h'
        · exact absurd h' (by simp)
        · exact h'
      rw [scanLocalEntries_cons_found]
      cases hp : parse_local_save_filename fn with
      | none => exact ih hr acc
      | some cs =>
        obtain ⟨c, s, hsh⟩ := cs
        exact ih hr _

/-- C6.  Scan error atomicity: `load_saves` either fully succeeds with
both collections or fails with the single `IoError`; whenever reading
either directory fails (the `read_dir` call itself or any entry of it),
the whole scan returns only the error — in particular a failure on the
archive directory discards the already-scanned game records. -/
theorem claim_C6_scan_atomicity (gd ld : DirListing) (gp lp : Path)
    (h : (gd = .readFail ∨ ∃ es, gd = .entries es ∧ EntryResult.fail ∈ es) ∨
         (ld = .readFail ∨ ∃ es, ld = .entries es ∧ EntryResult.fail ∈ es)) :
    load_saves gd ld gp lp = .error (.IoError ()) := by
  cases h with
  | inl hg =>
    have hsg : scanGame gp gd = .error (.IoError ()) := by
      rcases hg with rfl | ⟨es, rfl, hm⟩
      · rfl
      · exact scanGameEntries_error_of_fail gp es hm []
    unfold load_saves
    rw [hsg]
  | inr hl =>
    have hsl : scanLocal lp ld = .error (.IoError ()) := by
      rcases hl with rfl | ⟨es, rfl, hm⟩
      · rfl
      · exact scanLocalEntries_error_of_fail lp es hm []
    unfold load_saves
    rw [hsl]
    cases hsg : scanGame gp gd with
    | error e =>
      obtain ⟨u⟩ := e
      cases u
      rfl
    | ok g => rfl

/-- Witness for C6: a failing archive directory aborts the scan even
though the game directory scans cleanly. -/
theorem claim_C6_scan_atomicity_witness :
    load_saves sampleListing .readFail [['g']] [['d']] = .error (.IoError ()) :=
  claim_C6_scan_atomicity sampleListing .readFail [['g']] [['d']] (Or.inr (Or.inl rfl))

/-- C7.  Scan on a nonexistent directory: a directory that does not
exist is treated as empty — that side contributes an empty collection
and no error, while the other side is scanned normally. -/
theorem claim_C7_nonexistent_dir (gd ld : DirListing) (gp lp : Path)
    (g : List ((Nat × Nat) × SaveFile)) (l : List SaveFile)
    (hg : scanGame gp gd = .ok g) (hl : scanLocal lp ld = .ok l) :
    load_saves gd .absent gp lp = .ok (g, []) ∧
      load_saves .absent ld gp lp = .ok ([], l) := by
  constructor
  · unfold load_saves
    rw [hg]
    rfl
  · unfold load_saves
    rw [hl]
    rfl

/-- Witness for C7: a nonexistent archive directory yields an empty
archive list next to one scanned game save, and vice versa. -/
theorem claim_C7_nonexistent_dir_witness :
    load_saves sampleListing .absent [['g']] [['d']] =
        .ok ([((1, 0),
          ⟨[['g']] ++ ["filech1_0".toList], 1, 0, none, some 7, false⟩)], []) ∧
      load_saves .absent (.entries []) [['g']] [['d']] = .ok ([], []) :=
  claim_C7_nonexistent_dir sampleListing (.entries []) [['g']] [['d']] _ _ (by rfl) (by rfl)

/-- C9.  Chapter numbers outside 1–7 are tolerated: for every chapter
value the `u8` field can carry (0–255, including everything outside
1–7) and slot in {0,1,2}, both decoders accept the well-formed
filename and the scanner builds a save record from it — no
chapter-range validation happens on decode or on write. -/
theorem claim_C9_chapter_range (chapter slot : Nat) (content : List Nat)
    (secs nanos : Nat) (modified : Option Nat) (game_path : Path)
    (hc : chapter ≤ 255) (hs : slot ≤ 2) :
    parse_save_filename (live_filename chapter slot) = some (chapter, slot) ∧
      parse_local_save_filename (backup_filename chapter slot content secs nanos) =
        some (chapter, slot, hexDigest (sha256 content)) ∧
      scanGame game_path (.entries [.found (some (live_filename chapter slot)) modified]) =
        .ok [((chapter, slot),
          ⟨game_path ++ [live_filename chapter slot], chapter, slot, none, modified, false⟩)] := by
  refine ⟨parse_live_roundtrip chapter slot hc hs,
    parse_archive_roundtrip chapter slot content secs nanos hc hs, ?_⟩
  show scanGameEntries game_path [.found (some (live_filename chapter slot)) modified] [] = _
  rw [scanGameEntries_cons_found, parse_live_roundtrip chapter slot hc hs]
  rfl

/-- Witness for C9 at chapter 100, far outside 1–7. -/
theorem claim_C9_chapter_range_witness :
    parse_save_filename (live_filename 100 2) = some (100, 2) ∧
      parse_local_save_filename (backup_filename 100 2 [65] 100 5) =
        some (100, 2, hexDigest (sha256 [65])) ∧
      scanGame [['g']] (.entries [.found (some (live_filename 100 2)) (some 7)]) =
        .ok [((100, 2), ⟨[['g']] ++ [live_filename 100 2], 100, 2, none, some 7, false⟩)] :=
  claim_C9_chapter_range 100 2 [65] 100 5 (some 7) [['g']] (by decide) (by decide)

/-! ## Lemmas for last-wins duplicate handling -/

lemma lookupKV_insertKV {K V : Type} [DecidableEq K] (m : List (K × V)) (k k' : K) (v : V) :
    lookupKV (insertKV m k v) k' = if k = k' then some v else lookupKV m k' := by
  induction m with
  | nil => simp only [insertKV, lookupKV]
  | cons kv rest ih =>
    obtain ⟨k0, v0⟩ := kv
    simp only [insertKV]
    by_cases h0 : k0 = k
    · subst h0
      rw [if_pos rfl]
      simp only [lookupKV]
      by_cases hk : k0 = k'
      · rw [if_pos hk, if_pos hk]
      · rw [if_neg hk, if_neg hk, if_neg hk]
    · rw [if_neg h0]
      simp only [lookupKV]
      by_cases hk : k0 = k'
      · rw [if_pos hk, if_pos hk, if_neg (by rintro rfl; exact h0 hk)]
      · rw [if_neg hk, if_neg hk, ih]

lemma mem_keys_insertKV {K V : Type} [DecidableEq K] (m : List (K × V)) (k a : K) (v : V)
    (h : a ∈ (insertKV m k v).map Prod.fst) : a ∈ m.map Prod.fst ∨ a = k := by
  induction m with
  | nil =>
    simp only [insertKV, List.map_cons, List.map_nil, List.mem_singleton] at h
    exact Or.inr h
  | cons kv rest ih =>
    obtain ⟨k0, v0⟩ := kv
    simp only [insertKV] at h
    by_cases h0 : k0 = k
    · rw [if_pos h0] at h
      simp only [List.map_cons, List.mem_cons] at h ⊢
      rcases h with rfl | h
      · exact Or.inr rfl
      · exact Or.inl (Or.inr h)
    · rw [if_neg h0] at h
      simp only [List.map_cons, List.mem_cons] at h ⊢
      rcases h with rfl | h
      · exact Or.inl (Or.inl rfl)
      · rcases ih h with h' | h'
        · exact Or.inl (Or.inr h')
        · exact Or.inr h'

lemma nodup_keys_insertKV {K V : Type} [DecidableEq K] (m : List (K × V)) (k : K) (v : V)
    (h : (m.map Prod.fst).Nodup) : ((insertKV m k v).map Prod.fst).Nodup := by
  induction m with
  | nil => simp [insertKV]
  | cons kv rest ih =>
    obtain ⟨k0, v0⟩ := kv
    simp only [List.map_cons, List.nodup_cons] at h
    obtain ⟨hnotin, hrest⟩ := h
    simp only [insertKV]
    by_cases h0 : k0 = k
    · subst h0
      rw [if_pos rfl]
      simp only [List.map_cons, List.nodup_cons]
      exact ⟨hnotin, hrest⟩
    · rw [if_neg h0]
      simp only [List.map_cons, List.nodup_cons]
      refine ⟨?_, ih hrest⟩
      intro hmem
      rcases mem_keys_insertKV rest k k0 v hmem with h' | h'
      · exact hnotin h'
      · exact h0 h'

lemma lastStep_acc (gp : Path) (k : Nat × Nat) (acc : Option SaveFile) (e : EntryResult) :
    lastStep gp k acc e = (lastStep gp k none e).or acc := by
  match e with
  | .fail => rfl
  | .found none t => rfl
  | .found (some fn) t =>
    simp only [lastStep]
    cases hp : parse_save_filename fn with
    | none => rfl
    | some cs =>
      obtain ⟨c, s⟩ := cs
      by_cases hk : (c, s) = k <;> simp [hk]

lemma foldl_lastStep_or (gp : Path) (k : Nat × Nat) (es : List EntryResult) :
    ∀ acc, es.foldl (lastStep gp k) acc = (lastSaveFor gp k es).or acc := by
  induction es with
  | nil => intro acc; rfl
  | cons e rest ih =>
    intro acc
    simp only [List.foldl_cons]
    rw [ih (lastStep gp k acc e), lastStep_acc,
      show lastSaveFor gp k (e :: rest) = (lastSaveFor gp k rest).or (lastStep gp k none e) from by
        simp only [lastSaveFor, List.foldl_cons]
        exact ih _]
    rw [Option.or_assoc]

lemma scanGameEntries_lookup (gp : Path) (es : List EntryResult) :
    ∀ (m0 m : List ((Nat × Nat) × SaveFile)), scanGameEntries gp es m0 = .ok m →
      ∀ k, lookupKV m k = (lastSaveFor gp k es).or (lookupKV m0 k) := by
  induction es with
  | nil =>
    intro m0 m h k
    obtain rfl : m0 = m := Except.ok.inj h
    rfl
  | cons e rest ih =>
    intro m0 m h k
    match e with
    | .fail => simp [scanGameEntries] at h
    | .found none t =>
      rw [ih m0 m h k]
      rfl
    | .found (some fn) t =>
      cases hp : parse_save_filename fn with
      | none =>
        have h' : scanGameEntries gp rest m0 = .ok m := by
          rwa [scanGameEntries_cons_found, hp] at h
        rw [ih m0 m h' k,
          show lastSaveFor gp k (.found (some fn) t :: rest) = lastSaveFor gp k rest from by
            simp only [lastSaveFor, List.foldl_cons, lastStep, hp]]
      | some cs =>
        obtain ⟨c, s⟩ := cs
        have h' : scanGameEntries gp rest
            (insertKV m0 (c, s) ⟨gp ++ [fn], c, s, none, t, false⟩) = .ok m := by
          rwa [scanGameEntries_cons_found, hp] at h
        rw [ih _ m h' k, lookupKV_insertKV]
        have hstep : lastStep gp k none (.found (some fn) t) =
            if (c, s) = k then some ⟨gp ++ [fn], c, s, none, t, false⟩ else none := by
          simp only [lastStep, hp]
        have hlast : lastSaveFor gp k (.found (some fn) t :: rest) =
            (lastSaveFor gp k rest).or (lastStep gp k none (.found (some fn) t)) := by
          simp only [lastSaveFor, List.foldl_cons]
          exact foldl_lastStep_or gp k rest _
        rw [hlast, hstep, Option.or_assoc]
        congr 1
        by_cases hk : (c, s) = k
        · rw [if_pos hk, if_pos hk]
          rfl
        · rw [if_neg hk, if_neg hk]
          rfl

lemma scanGameEntries_nodup (gp : Path) (es : List EntryResult) :
    ∀ m0 m, (m0.map Prod.fst).Nodup → scanGameEntries gp es m0 = .ok m →
      ((m.map Prod.fst).Nodup : Prop) := by
  induction es with
  | nil =>
    intro m0 m h0 h
    obtain rfl : m0 = m := Except.ok.inj h
    exact h0
  | cons e rest ih =>
    intro m0 m h0 h
    match e with
    | .fail => simp [scanGameEntries] at h
    | .found none t => exact ih m0 m h0 h
    | .found (some fn) t =>
      cases hp : parse_save_filename fn with
      | none =>
        refine ih m0 m h0 ?_
        rwa [scanGameEntries_cons_found, hp] at h
      | some cs =>
        obtain ⟨c, s⟩ := cs
        refine ih (insertKV m0 (c, s) ⟨gp ++ [fn], c, s, none, t, false⟩) m
          (nodup_keys_insertKV m0 (c, s) ⟨gp ++ [fn], c, s, none, t, false⟩ h0) ?_
        rwa [scanGameEntries_cons_found, hp] at h

lemma load_saves_ok_split (gd ld : DirListing) (gp lp : Path)
    (m : List ((Nat × Nat) × SaveFile)) (l : List SaveFile)
    (h : load_saves gd ld gp lp = .ok (m, l)) :
    scanGame gp gd = .ok m ∧ scanLocal lp ld = .ok l := by
  unfold load_saves at h
  cases hsg : scanGame gp gd with
  | error e =>
    rw [hsg] at h
    simp at h
  | ok g =>
    rw [hsg] at h
    cases hsl : scanLocal lp ld with
    | error e =>
      rw [hsl] at h
      simp at h
    | ok l' =>
      rw [hsl] at h
      simp only [Except.ok.injEq, Prod.mk.injEq] at h
      obtain ⟨rfl, rfl⟩ := h
      exact ⟨rfl, rfl⟩

/-- C10.  Last-wins duplicate handling: a successful `load_saves`
returns a game-saves map with at most one record per `(chapter, slot)`
key (its key list has no duplicates), and the record found at a key is
exactly the one built from the last directory entry that decoded to
that key — a later duplicate silently replaces an earlier one. -/
theorem claim_C10_last_wins (gd ld : DirListing) (gp lp : Path)
    (m : List ((Nat × Nat) × SaveFile)) (l : List SaveFile)
    (h : load_saves gd ld gp lp = .ok (m, l)) :
    (m.map Prod.fst).Nodup ∧
      ∀ es, gd = .entries es → ∀ k, lookupKV m k = lastSaveFor gp k es := by
  obtain ⟨hg, -⟩ := load_saves_ok_split gd ld gp lp m l h
  constructor
  · cases gd with
    | absent =>
      obtain rfl : ([] : List ((Nat × Nat) × SaveFile)) = m := Except.ok.inj hg
      simp
    | readFail => simp [scanGame] at hg
    | entries es => exact scanGameEntries_nodup gp es [] m (by simp) hg
  · rintro es rfl k
    rw [scanGameEntries_lookup gp es [] m hg k,
      show lookupKV ([] : List ((Nat × Nat) × SaveFile)) k = none from rfl,
      Option.or_none]

/-- Witness for C10: two entries decoding to (1,0); the map holds one
record, the one from the later entry (modified time 2). -/
theorem claim_C10_last_wins_witness :
    (([((1, 0),
      (⟨[['g']] ++ ["filech1_0".toList], 1, 0, none, some 2, false⟩ : SaveFile))]).map
        Prod.fst).Nodup ∧
      ∀ es, dupListing = .entries es → ∀ k,
        lookupKV [((1, 0),
          (⟨[['g']] ++ ["filech1_0".toList], 1, 0, none, some 2, false⟩ : SaveFile))] k =
          lastSaveFor [['g']] k es :=
  claim_C10_last_wins dupListing (.entries []) [['g']] [['d']] _ _ (by rfl)

end Deltasaver
